import Mathlib

/-!
Verification of the raw-memory-reader core (src/src/lib.rs) on a 64-bit
little-endian platform. The embedding models byte-addressed memory as a
partial function from addresses to byte values; an unallocated address reads
as `none`, which marks the read as undefined behavior (the Rust code performs
no check there). `RawMemoryRef` mirrors the Rust struct: a raw pointer value,
a logical length and an allocated capacity, all in bytes. The compile-time
lifetime tag (`PhantomData<&'a ()>`) has no runtime representation and is
therefore absent from the embedding.
-/

/-- Bytes per machine word (`usize`) on the modelled 64-bit platform. -/
def WORD_BYTES : Nat := 8

/-- Modulus of `usize` arithmetic (wrapping multiplication). -/
def USIZE_MOD : Nat := 2 ^ 64

/-- Byte-addressed memory. `none` means the address is not validly
allocated: reading it is undefined behavior, not a recoverable error.
A `some b` cell holds the byte value `b % 256`. -/
def Mem : Type := Nat → Option Nat

/-- Embeds the Rust struct `RawMemoryRef` (src/src/lib.rs lines 2 to 7):
a raw pointer (`inner`), a byte length and a byte capacity. -/
structure RawMemoryRef where
  inner : Nat
  length : Nat
  capacity : Nat
deriving DecidableEq, Repr

/-- Read one byte of memory: `none` on an unallocated address (undefined
behavior in the source), otherwise the stored byte reduced to 8 bits. -/
def readByte (m : Mem) (a : Nat) : Option Nat :=
  (m a).map (fun b => b % 256)

/-- Read `n` consecutive bytes starting at `a`; `none` if any byte is
unallocated. -/
def readBytes (m : Mem) (a : Nat) : Nat → Option (List Nat)
  | 0 => some []
  | n + 1 =>
    match readByte m a, readBytes m (a + 1) n with
    | some b, some rest => some (b :: rest)
    | _, _ => none

/-- Assemble a little-endian machine word from its list of bytes. -/
def wordOfBytes (bs : List Nat) : Nat :=
  bs.foldr (fun b acc => b + 256 * acc) 0

/-- Read the `usize` word stored at address `a` (little-endian). -/
def readWord (m : Mem) (a : Nat) : Option Nat :=
  (readBytes m a WORD_BYTES).map wordOfBytes

/-- Models `<[usize]>::get(i)` on the slice built by
`slice::from_raw_parts(base, len)`: the bounds check `i < len` against the
slice length that was passed to `from_raw_parts`, returning the address of
element `i` on success. No memory is read yet. -/
def sliceGetAddr (base len i : Nat) : Option Nat :=
  if i < len then some (base + i * WORD_BYTES) else none

/-- Outcome of a step-into decode: a new region, a fatal `expect` panic
with its message, or an unchecked out-of-bounds read (undefined behavior). -/
inductive DecodeResult where
  | ok : RawMemoryRef → DecodeResult
  | panicked : String → DecodeResult
  | ub : DecodeResult
deriving DecidableEq, Repr

/-- Whether a decode ended in the `expect` panic branch. -/
def DecodeResult.isPanicked : DecodeResult → Bool
  | .panicked _ => true
  | _ => false

/-- Holds when a decode, if it produced a region, produced one whose
`length` equals its `capacity`. -/
def DecodeResult.okLenEqCap : DecodeResult → Prop
  | .ok r => r.length = r.capacity
  | _ => True

/-- Embeds `RawMemoryRef::new` (src/src/lib.rs lines 11 to 19). `addr` is the
referenced value's address and `size_of_val` its in-memory size in bytes
(`std::mem::size_of_val(inner)`); length and capacity are both set to it.
A total function: no error conditions. -/
def RawMemoryRef.new (addr size_of_val : Nat) : RawMemoryRef :=
  { inner := addr, length := size_of_val, capacity := size_of_val }

/-- Embeds `RawMemoryRef::with_capacity` (src/src/lib.rs lines 30 to 37):
like `new` but the capacity is the caller-supplied value. It takes no
memory argument because the source performs no read and no check of
`capacity` at construction time. -/
def RawMemoryRef.with_capacity (addr size_of_val capacity : Nat) : RawMemoryRef :=
  { inner := addr, length := size_of_val, capacity := capacity }

/-- Embeds `RawMemoryRef::into_inner` (src/src/lib.rs lines 39 to 46):
dereference the leading pointer word and take the caller-supplied byte
count for both length and capacity. -/
def RawMemoryRef.into_inner (m : Mem) (self : RawMemoryRef)
    (inner_size_bytes : Nat) : DecodeResult :=
  match readWord m self.inner with
  | some ptr =>
    .ok { inner := ptr, length := inner_size_bytes, capacity := inner_size_bytes }
  | none => .ub

/-- Embeds `RawMemoryRef::into_inner_with_length` (src/src/lib.rs lines 48
to 60). The source builds `slice::from_raw_parts(self.inner, 2)` — a slice
of length exactly 2, regardless of `self.capacity` — then calls
`.get(1).expect("pointer type given should contain a length")` and finally
dereferences the element and the leading pointer word. The element-count
word times `inner_size_bytes` (wrapping `usize` multiplication) becomes both
length and capacity. -/
def RawMemoryRef.into_inner_with_length (m : Mem) (self : RawMemoryRef)
    (inner_size_bytes : Nat) : DecodeResult :=
  match sliceGetAddr self.inner 2 1 with
  | none => .panicked "pointer type given should contain a length"
  | some szAddr =>
    match readWord m szAddr, readWord m self.inner with
    | some inner_size, some ptr =>
      .ok { inner := ptr,
            length := inner_size * inner_size_bytes % USIZE_MOD,
            capacity := inner_size * inner_size_bytes % USIZE_MOD }
    | _, _ => .ub

/-- Embeds `RawMemoryRef::into_inner_with_length_and_capacity`
(src/src/lib.rs lines 105 to 120). The source builds
`slice::from_raw_parts(self.inner, 3)` — a slice of length exactly 3,
regardless of `self.capacity` — then `.get(1).expect("pointer type given
should contain a capacity")`, `.get(2).expect("pointer type given should
contain a length")`, and dereferences both elements and the leading pointer
word. Word order: pointer, capacity-count, length-count. -/
def RawMemoryRef.into_inner_with_length_and_capacity (m : Mem)
    (self : RawMemoryRef) (inner_size_bytes : Nat) : DecodeResult :=
  match sliceGetAddr self.inner 3 1 with
  | none => .panicked "pointer type given should contain a capacity"
  | some capAddr =>
    match sliceGetAddr self.inner 3 2 with
    | none => .panicked "pointer type given should contain a length"
    | some szAddr =>
      match readWord m capAddr, readWord m szAddr, readWord m self.inner with
      | some inner_capacity, some inner_size, some ptr =>
        .ok { inner := ptr,
              length := inner_size * inner_size_bytes % USIZE_MOD,
              capacity := inner_capacity * inner_size_bytes % USIZE_MOD }
      | _, _, _ => .ub

/-- Embeds `RawMemoryRef::allocated_bytes` (src/src/lib.rs lines 144 to
146): read `capacity` bytes starting at `inner`, with no bounds check
against the true allocation (an unallocated byte is undefined behavior,
surfacing as `none`). -/
def RawMemoryRef.allocated_bytes (m : Mem) (self : RawMemoryRef) : Option (List Nat) :=
  readBytes m self.inner self.capacity

/-- Embeds `RawMemoryRef::initialized_bytes` (src/src/lib.rs lines 169 to
171): read `length` bytes starting at `inner`, with no bounds check against
the true allocation. -/
def RawMemoryRef.initialized_bytes (m : Mem) (self : RawMemoryRef) : Option (List Nat) :=
  readBytes m self.inner self.length

/-- Embeds `RawMemoryRef::len` (src/src/lib.rs lines 174 to 176). -/
def RawMemoryRef.len (self : RawMemoryRef) : Nat :=
  self.length

/-- Embeds `RawMemoryRef::capacity` (src/src/lib.rs lines 179 to 181). -/
def RawMemoryRef.cap (self : RawMemoryRef) : Nat :=
  self.capacity

/-- A memory whose valid allocation is exactly the bytes of `bs`, laid out
from address `base`; every other address is unallocated. -/
def memOfBytes (base : Nat) (bs : List Nat) : Mem :=
  fun a => if a < base then none else bs.get? (a - base)

/-- Little-endian byte decomposition of `v` into `n` bytes. -/
def bytesOfNat (v : Nat) : Nat → List Nat
  | 0 => []
  | n + 1 => v % 256 :: bytesOfNat (v / 256) n

/-- Concatenated little-endian bytes of a list of machine words. -/
def bytesOfWords (ws : List Nat) : List Nat :=
  (ws.map (fun w => bytesOfNat w WORD_BYTES)).flatten

/-- Two's-complement little-endian encoding of the integer `v` in `n`
bytes (the platform-native scalar encoding). -/
def encodeIntLE (v : Int) (n : Nat) : List Nat :=
  bytesOfNat (v % Int.ofNat (2 ^ (8 * n))).toNat n

/-- A one-word allocation holding the word 0: the smallest well-formed
from-value region of a pointer-sized value. -/
def oneWordMem : Mem := memOfBytes 0 (bytesOfWords [0])

/-- Memory for the pointer+capacity+length scenario: a three-word handle at
address 0 — pointer 100, capacity-count 5, length-count 3. -/
def tripleHandleMem : Mem := memOfBytes 0 (bytesOfWords [100, 5, 3])

/-- Memory for the pointer+length round-trip scenario: a two-word handle at
address 0 — pointer 16, element-count 3 — immediately followed at address
16 by the pushed bytes 1, 2, 3. -/
def pairHandleMem : Mem := memOfBytes 0 (bytesOfWords [16, 3] ++ [1, 2, 3])

/-- A three-byte allocation holding bytes 1, 2, 3 at address 0. -/
def threeByteMem : Mem := memOfBytes 0 [1, 2, 3]

/-- A one-byte allocation holding the byte 251 at address 0: the
two's-complement image of the 8-bit value -5. -/
def byte251Mem : Mem := memOfBytes 0 [251]

theorem readBytes_spec (m : Mem) :
    ∀ (n a : Nat) (bs : List Nat), readBytes m a n = some bs →
      bs.length = n ∧ ∀ i, i < n → bs.get? i = readByte m (a + i) := by
  intro n
  induction n with
  | zero =>
    intro a bs h
    simp only [readBytes, Option.some.injEq] at h
    subst h
    exact ⟨rfl, fun i hi => absurd hi (Nat.not_lt_zero i)⟩
  | succ k ih =>
    intro a bs h
    simp only [readBytes] at h
    cases hb : readByte m a with
    | none => rw [hb] at h; exact absurd h (by simp)
    | some b =>
      cases hr : readBytes m (a + 1) k with
      | none => rw [hb, hr] at h; exact absurd h (by simp)
      | some rest =>
        rw [hb, hr] at h
        simp only [Option.some.injEq] at h
        subst h
        obtain ⟨hlen, hget⟩ := ih (a + 1) rest hr
        refine ⟨by simp [hlen], ?_⟩
        intro i hi
        cases i with
        | zero => simpa using hb.symm
        | succ j =>
          have hj : j < k := Nat.lt_of_succ_lt_succ hi
          have := hget j hj
          simpa [Nat.add_assoc, Nat.add_comm 1 j] using this

/-- Claim C1 (code_bug evidence). The claim says a Region whose
`allocated_capacity` spans fewer than 2 (pointer+length) or 3
(pointer+capacity+length) machine words makes the step-into fail with a
descriptive panic and never read out of bounds. In the source, the slice is
built by `slice::from_raw_parts(self.inner, 2 or 3)` with a hard-coded
length, so `get(1)`/`get(2)` always succeed and the `expect` can never
fire; the missing metadata words are read unchecked. Here: on a one-word
region over a one-word allocation both decodes end in undefined behavior
(an out-of-bounds read), and the panic branch is unreachable for every
memory, region and element size. -/
theorem metadata_check_is_dead_code :
    RawMemoryRef.into_inner_with_length oneWordMem ⟨0, 8, 8⟩ 1 = DecodeResult.ub ∧
    RawMemoryRef.into_inner_with_length_and_capacity oneWordMem ⟨0, 8, 8⟩ 1 =
      DecodeResult.ub ∧
    (∀ (m : Mem) (self : RawMemoryRef) (s : Nat),
      (RawMemoryRef.into_inner_with_length m self s).isPanicked = false) ∧
    (∀ (m : Mem) (self : RawMemoryRef) (s : Nat),
      (RawMemoryRef.into_inner_with_length_and_capacity m self s).isPanicked = false) := by
  refine ⟨rfl, rfl, ?_, ?_⟩
  · intro m self s
    unfold RawMemoryRef.into_inner_with_length
    split
    · next heq => exact absurd heq (by simp [sliceGetAddr])
    · split <;> rfl
  · intro m self s
    unfold RawMemoryRef.into_inner_with_length_and_capacity
    split
    · next heq => exact absurd heq (by simp [sliceGetAddr])
    · split
      · next heq => exact absurd heq (by simp [sliceGetAddr])
      · split <;> rfl

/-- Claim C3: on a three-word handle (pointer `p`, capacity-count `c`,
length-count `k`), `into_inner_with_length_and_capacity` with element size
`s` yields a region with origin `p`, logical length `k * s` and allocated
capacity `c * s` (no overflow assumed). -/
theorem into_inner_with_length_and_capacity_decodes_triple
    (m : Mem) (self : RawMemoryRef) (s p c k : Nat)
    (hp : readWord m self.inner = some p)
    (hc : readWord m (self.inner + WORD_BYTES) = some c)
    (hk : readWord m (self.inner + 2 * WORD_BYTES) = some k)
    (hcs : c * s < USIZE_MOD) (hks : k * s < USIZE_MOD) :
    RawMemoryRef.into_inner_with_length_and_capacity m self s =
      DecodeResult.ok ⟨p, k * s, c * s⟩ := by
  simp [RawMemoryRef.into_inner_with_length_and_capacity, sliceGetAddr, hp, hc, hk,
    Nat.mod_eq_of_lt hcs, Nat.mod_eq_of_lt hks]

/-- Witness for C3: a handle with pointer 100, capacity-count 5,
length-count 3 (so k = 3 < c = 5 pushed elements) and element size 2
decodes to origin 100, logical length 6, allocated capacity 10. -/
theorem triple_decode_witness :
    (readWord tripleHandleMem 0 = some 100 ∧
     readWord tripleHandleMem (0 + WORD_BYTES) = some 5 ∧
     readWord tripleHandleMem (0 + 2 * WORD_BYTES) = some 3 ∧
     5 * 2 < USIZE_MOD ∧ 3 * 2 < USIZE_MOD) ∧
    RawMemoryRef.into_inner_with_length_and_capacity tripleHandleMem ⟨0, 24, 24⟩ 2 =
      DecodeResult.ok ⟨100, 6, 10⟩ :=
  ⟨⟨rfl, rfl, rfl, by decide, by decide⟩,
   into_inner_with_length_and_capacity_decodes_triple tripleHandleMem ⟨0, 24, 24⟩ 2
     100 5 3 rfl rfl rfl (by decide) (by decide)⟩

/-- Claim C4: on a two-word handle (pointer `p`, element-count `k`),
`into_inner_with_length` with element size `s` yields a region with origin
`p` and logical length and allocated capacity both `k * s`; its
`initialized_bytes` then reads exactly the `k * s` bytes stored at `p`
(the pushed elements, in order). -/
theorem into_inner_with_length_decodes_pair
    (m : Mem) (self : RawMemoryRef) (s p k : Nat)
    (hp : readWord m self.inner = some p)
    (hk : readWord m (self.inner + WORD_BYTES) = some k)
    (hks : k * s < USIZE_MOD) :
    RawMemoryRef.into_inner_with_length m self s = DecodeResult.ok ⟨p, k * s, k * s⟩ ∧
    RawMemoryRef.initialized_bytes m ⟨p, k * s, k * s⟩ = readBytes m p (k * s) := by
  constructor
  · simp [RawMemoryRef.into_inner_with_length, sliceGetAddr, hp, hk,
      Nat.mod_eq_of_lt hks]
  · rfl

/-- Witness for C4: a handle with pointer 16 and element-count 3 over a
buffer holding bytes 1, 2, 3 at address 16 decodes, with element size 1, to
a region with length = capacity = 3 whose `initialized_bytes` is exactly
`[1, 2, 3]` — the pushed elements in push order. -/
theorem pair_decode_witness :
    (readWord pairHandleMem 0 = some 16 ∧
     readWord pairHandleMem (0 + WORD_BYTES) = some 3 ∧
     3 * 1 < USIZE_MOD) ∧
    (RawMemoryRef.into_inner_with_length pairHandleMem ⟨0, 16, 16⟩ 1 =
       DecodeResult.ok ⟨16, 3, 3⟩ ∧
     RawMemoryRef.initialized_bytes pairHandleMem ⟨16, 3, 3⟩ =
       readBytes pairHandleMem 16 3) ∧
    readBytes pairHandleMem 16 3 = some [1, 2, 3] :=
  ⟨⟨rfl, rfl, by decide⟩,
   into_inner_with_length_decodes_pair pairHandleMem ⟨0, 16, 16⟩ 1 16 3 rfl rfl (by decide),
   rfl⟩

/-- Claim C5: `new` is total (no error conditions), sets the origin to the
value's address, and sets both `len` and `capacity` to the value's
in-memory size (`size_of_val` — for a growable container, the size of its
handle). -/
theorem new_region_len_eq_capacity_eq_size (addr size : Nat) :
    (RawMemoryRef.new addr size).inner = addr ∧
    (RawMemoryRef.new addr size).len = size ∧
    (RawMemoryRef.new addr size).cap = size :=
  ⟨rfl, rfl, rfl⟩

/-- Claim C6: `with_capacity` keeps the computed size as the logical length
and takes the caller-supplied capacity verbatim, for every capacity value —
no runtime check (the statement holds for arbitrary `c`) and no memory read
(the embedded function takes no memory argument, mirroring the source,
which only stores the three fields). -/
theorem with_capacity_sets_len_and_capacity (addr size c : Nat) :
    (RawMemoryRef.with_capacity addr size c).inner = addr ∧
    (RawMemoryRef.with_capacity addr size c).len = size ∧
    (RawMemoryRef.with_capacity addr size c).cap = c :=
  ⟨rfl, rfl, rfl⟩

/-- Claim C7: `allocated_bytes` returns exactly `capacity` bytes starting
at the origin and `initialized_bytes` returns exactly `length` bytes
starting at the origin — byte `i` of each result is the byte of memory at
`inner + i`. No bound relating the region to the true allocation is
required anywhere (an unallocated byte simply makes the read undefined
behavior, surfacing as `none`). -/
theorem byte_accessors_exact_ranges
    (m : Mem) (r : RawMemoryRef) (bsA bsI : List Nat)
    (hA : RawMemoryRef.allocated_bytes m r = some bsA)
    (hI : RawMemoryRef.initialized_bytes m r = some bsI) :
    (bsA.length = r.capacity ∧
     ∀ i, i < r.capacity → bsA.get? i = readByte m (r.inner + i)) ∧
    (bsI.length = r.length ∧
     ∀ i, i < r.length → bsI.get? i = readByte m (r.inner + i)) :=
  ⟨readBytes_spec m r.capacity r.inner bsA hA,
   readBytes_spec m r.length r.inner bsI hI⟩

/-- Witness for C7: over a three-byte allocation `[1, 2, 3]`, a region
with length 2 and capacity 3 yields `allocated_bytes = [1, 2, 3]` and
`initialized_bytes = [1, 2]`, with the stated lengths and per-byte
agreement. -/
theorem byte_accessors_witness :
    (RawMemoryRef.allocated_bytes threeByteMem ⟨0, 2, 3⟩ = some [1, 2, 3] ∧
     RawMemoryRef.initialized_bytes threeByteMem ⟨0, 2, 3⟩ = some [1, 2]) ∧
    (([1, 2, 3] : List Nat).length = 3 ∧
     ∀ i, i < 3 → ([1, 2, 3] : List Nat).get? i = readByte threeByteMem (0 + i)) ∧
    (([1, 2] : List Nat).length = 2 ∧
     ∀ i, i < 2 → ([1, 2] : List Nat).get? i = readByte threeByteMem (0 + i)) :=
  ⟨⟨rfl, rfl⟩,
   byte_accessors_exact_ranges threeByteMem ⟨0, 2, 3⟩ [1, 2, 3] [1, 2] rfl rfl⟩

/-- Claim C9: on a from-value region over a scalar of byte-size `n` whose
memory holds the platform-native (little-endian two's-complement) encoding
of the value `v`, `allocated_bytes` returns exactly that `n`-byte encoding,
and `len = capacity = n`; in particular the 8-bit encoding of -5 is the
single byte 251. -/
theorem allocated_bytes_scalar_encoding
    (m : Mem) (a : Nat) (v : Int) (n : Nat)
    (h : readBytes m a n = some (encodeIntLE v n)) :
    RawMemoryRef.allocated_bytes m (RawMemoryRef.new a n) = some (encodeIntLE v n) ∧
    (RawMemoryRef.new a n).len = n ∧
    (RawMemoryRef.new a n).cap = n ∧
    encodeIntLE (-5) 1 = [251] :=
  ⟨h, rfl, rfl, by decide⟩

/-- Witness for C9: a one-byte allocation holding 251 is exactly the
encoding of the 8-bit value -5, and the from-value region reads it back. -/
theorem scalar_encoding_witness :
    readBytes byte251Mem 0 1 = some (encodeIntLE (-5) 1) ∧
    (RawMemoryRef.allocated_bytes byte251Mem (RawMemoryRef.new 0 1) =
       some (encodeIntLE (-5) 1) ∧
     (RawMemoryRef.new 0 1).len = 1 ∧
     (RawMemoryRef.new 0 1).cap = 1 ∧
     encodeIntLE (-5) 1 = [251]) :=
  ⟨by decide, allocated_bytes_scalar_encoding byte251Mem 0 (-5) 1 (by decide)⟩

/-- Claim C10: every region produced by `new`, `into_inner` or
`into_inner_with_length` has `length = capacity`, while `with_capacity` and
`into_inner_with_length_and_capacity` can produce regions where the two
differ (shown by explicit instances). -/
theorem len_eq_capacity_invariant :
    (∀ addr size,
       (RawMemoryRef.new addr size).length = (RawMemoryRef.new addr size).capacity) ∧
    (∀ (m : Mem) (self : RawMemoryRef) (s : Nat),
       DecodeResult.okLenEqCap (RawMemoryRef.into_inner m self s)) ∧
    (∀ (m : Mem) (self : RawMemoryRef) (s : Nat),
       DecodeResult.okLenEqCap (RawMemoryRef.into_inner_with_length m self s)) ∧
    (∃ addr size c,
       (RawMemoryRef.with_capacity addr size c).length ≠
         (RawMemoryRef.with_capacity addr size c).capacity) ∧
    (∃ r : RawMemoryRef,
       RawMemoryRef.into_inner_with_length_and_capacity tripleHandleMem ⟨0, 24, 24⟩ 1 =
         DecodeResult.ok r ∧
       r.length ≠ r.capacity) := by
  refine ⟨fun addr size => rfl, ?_, ?_, ⟨0, 0, 1, by decide⟩, ⟨⟨100, 3, 5⟩, rfl, by decide⟩⟩
  · intro m self s
    unfold RawMemoryRef.into_inner
    split
    · exact rfl
    · trivial
  · intro m self s
    unfold RawMemoryRef.into_inner_with_length
    split
    · trivial
    · split
      · exact rfl
      · trivial
